import Mathlib

set_option maxRecDepth 10000

/-!
# Verification of the nssa-framework CLI value pipeline

A shallow embedding of the hard core of `nssa-framework-cli`:

* `src/hex.rs` — hex decoding and the 32-byte address parser (`decode_bytes_32`),
* `src/parse.rs` — IDL-type-directed value parsing (`parse_value` and friends),
* `src/serialize.rs` — risc0 word encoding (`serialize_to_risc0` and friends),
* `src/pda.rs` — PDA seed resolution and XOR combination (`compute_pda_from_seeds`),
* `src/tx.rs` — the pre-parse completeness check of `execute_instruction`.

Modelling conventions:

* Rust `String` / `&str` values are modelled as their UTF-8 byte sequences,
  i.e. `List Nat` with entries below 256.  The helper `str` turns a Lean
  string literal into that byte form.
* Machine integers (`u8`/`u32`/`u64`/`u128`) are modelled as `Nat` with
  explicit `% 2 ^ w` at the points where the Rust code casts.
* Rust `HashMap<String, V>` is modelled as a lookup function
  `List Nat → Option V`.
* Fallible Rust functions returning `Result<T, String>` are modelled as
  `Except String T`; error message strings are rebuilt with `Nat.repr` in
  place of `format!` number interpolation.  Where a Rust message interpolates
  a `{:?}` debug dump, the model keeps the fixed message text only.
* `eprintln!` warnings of the serializer (which reports and continues rather
  than failing) are modelled as an explicit warning list returned next to the
  word output.
-/

deriving instance DecidableEq for Except

namespace Nssa

/-- UTF-8 encoding of one Unicode scalar value, as byte values. -/
def utf8Bytes (c : Char) : List Nat :=
  let n := c.toNat
  if n < 128 then [n]
  else if n < 2048 then [192 + n / 64, 128 + n % 64]
  else if n < 65536 then [224 + n / 4096, 128 + (n / 64) % 64, 128 + n % 64]
  else [240 + n / 262144, 128 + (n / 4096) % 64, 128 + (n / 64) % 64, 128 + n % 64]

/-- The UTF-8 bytes of a Lean string; the model of a Rust `&str` literal. -/
def str (s : String) : List Nat :=
  s.data.foldr (fun c acc => utf8Bytes c ++ acc) []

/-- Render modelled bytes back to text for error messages (ASCII-faithful). -/
def lit (l : List Nat) : String :=
  String.mk (l.map (fun b => Char.ofNat b))

/-! ## hex.rs -/

/-- `char::is_ascii_hexdigit` on a byte: `0-9`, `a-f`, `A-F`. -/
def isHexDigit (b : Nat) : Bool :=
  decide (48 ≤ b ∧ b ≤ 57) || decide (97 ≤ b ∧ b ≤ 102) || decide (65 ≤ b ∧ b ≤ 70)

/-- Value of an ASCII hex digit byte. -/
def hexDigitVal (b : Nat) : Nat :=
  if b ≤ 57 then b - 48 else if b ≤ 70 then b - 55 else b - 87

/-- `u8::from_str_radix(pair, 16)` on a two-byte slice.  Rust's integer
grammar allows an optional leading `+` sign, so `"+f"` parses to 15. -/
def parseHexPair (c0 c1 : Nat) : Option Nat :=
  if isHexDigit c0 && isHexDigit c1 then some (16 * hexDigitVal c0 + hexDigitVal c1)
  else if c0 = 43 && isHexDigit c1 then some (hexDigitVal c1)
  else none

/-- The byte-pair loop of `hex_decode` (`src/hex.rs` lines 13-19), with the
running byte position `i` used in error messages. -/
def hexPairs : List Nat → Nat → Except String (List Nat)
  | [], _ => .ok []
  | c0 :: c1 :: rest, i =>
    match parseHexPair c0 c1 with
    | some b =>
      match hexPairs rest (i + 2) with
      | .ok bs => .ok (b :: bs)
      | .error e => .error e
    | none => .error ("Invalid hex at position " ++ Nat.repr i ++ ": invalid digit found in string")
  | [_], _ => .error "unreachable: caller checks even length"

/-- `hex_decode` from `src/hex.rs` lines 9-20. -/
def hex_decode (hex : List Nat) : Except String (List Nat) :=
  if hex.length % 2 ≠ 0 then
    .error ("Hex string has odd length: " ++ Nat.repr hex.length)
  else hexPairs hex 0

/-! ## The base58 collaborator

`decode_bytes_32` calls `input.from_base58()` from the external `base58`
crate (not part of this repository).  Modelled from the spec: the spec's
"base58 (exact 32-byte decode)" address format, instantiated with the
canonical Bitcoin base58 semantics the crate implements — a string is valid
iff every byte is in the 58-character alphabet; the decoded bytes are one
zero byte per leading `'1'` followed by the minimal big-endian bytes of the
base-58 value of the digits. -/

/-- The base58 alphabet as bytes. -/
def b58Alphabet : List Nat :=
  str "123456789ABCDEFGHJKLMNPQRSTUVWXYZabcdefghijkmnopqrstuvwxyz"

/-- Digit value of a byte in the base58 alphabet, if any. -/
def b58Val (c : Nat) : Option Nat :=
  b58Alphabet.indexOf? c

/-- Accumulate the base-58 value of the digit bytes; `none` on the first
byte outside the alphabet. -/
def b58ValueAux : List Nat → Nat → Option Nat
  | [], acc => some acc
  | c :: rest, acc =>
    match b58Val c with
    | some d => b58ValueAux rest (acc * 58 + d)
    | none => none

/-- Little-endian base-256 digits of `n`, with `fuel` bounding recursion
depth (`fuel = n` always suffices). -/
def bytesLEAux : Nat → Nat → List Nat
  | 0, _ => []
  | fuel + 1, n => if n = 0 then [] else n % 256 :: bytesLEAux fuel (n / 256)

/-- Minimal big-endian base-256 representation of `n` (empty for 0). -/
def natBytesBE (n : Nat) : List Nat :=
  (bytesLEAux n n).reverse

/-- Count of leading `'1'` digits (each contributes one zero byte). -/
def leadingOnes (s : List Nat) : Nat :=
  (s.takeWhile (fun b => b = 49)).length

/-- `str::from_base58` of the `base58` crate (see the section comment). -/
def from_base58 (s : List Nat) : Option (List Nat) :=
  match b58ValueAux s 0 with
  | none => none
  | some v => some (List.replicate (leadingOnes s) 0 ++ natBytesBE v)

/-- `input.strip_prefix("0x").or_else(|| input.strip_prefix("0X")).unwrap_or(input)`. -/
def strip0x (s : List Nat) : List Nat :=
  match s with
  | 48 :: 120 :: rest => rest
  | 48 :: 88 :: rest => rest
  | _ => s

/-- `decode_bytes_32` from `src/hex.rs` lines 23-51: try base58 first; only
if base58 fails entirely, strip an optional `0x`/`0X` and hex-decode. -/
def decode_bytes_32 (input : List Nat) : Except String (List Nat) :=
  match from_base58 input with
  | some bytes =>
    if bytes.length = 32 then .ok bytes
    else .error ("Base58 decoded to " ++ Nat.repr bytes.length ++ " bytes, expected 32")
  | none =>
    match hex_decode (strip0x input) with
    | .error e => .error e
    | .ok bytes =>
      if bytes.length = 32 then .ok bytes
      else .error ("Expected 32 bytes, got " ++ Nat.repr bytes.length ++
        " (provide base58 or 64 hex chars)")

/-! ## Data model (nssa-framework-core `idl.rs`, nssa-framework-cli `parse.rs`) -/

/-- `IdlType` from `nssa-framework-core/src/idl.rs` lines 81-87.  Rust's
boxed recursive fields become plain recursive arguments. -/
inductive IdlType where
  | Primitive : List Nat → IdlType
  | Vec : IdlType → IdlType
  | Option : IdlType → IdlType
  | Defined : List Nat → IdlType
  | Array : IdlType → Nat → IdlType
deriving DecidableEq

/-- `ParsedValue` from `nssa-framework-cli/src/parse.rs` lines 8-21. -/
inductive ParsedValue where
  | Bool : Bool → ParsedValue
  | U8 : Nat → ParsedValue
  | U32 : Nat → ParsedValue
  | U64 : Nat → ParsedValue
  | U128 : Nat → ParsedValue
  | Str : List Nat → ParsedValue
  | ByteArray : List Nat → ParsedValue
  | U32Array : List Nat → ParsedValue
  | ByteArrayVec : List (List Nat) → ParsedValue
  | None : ParsedValue
  | Some : ParsedValue → ParsedValue
  | Raw : List Nat → ParsedValue
deriving DecidableEq

/-- `IdlSeed` from `nssa-framework-core/src/idl.rs` lines 61-68. -/
inductive IdlSeed where
  | Const : List Nat → IdlSeed
  | Account : List Nat → IdlSeed
  | Arg : List Nat → IdlSeed
deriving DecidableEq

/-- `ProgramId` (`[u32; 8]` in nssa-core): eight 32-bit words. -/
abbrev ProgramId := List Nat

/-! ## pda.rs -/

/-- `k`-byte big-endian representation of `n` (the low `k` bytes); models
`u64::to_be_bytes` / `u128::to_be_bytes` with `k = 8` / `k = 16`. -/
def beBytes : Nat → Nat → List Nat
  | 0, _ => []
  | k + 1, n => beBytes k (n / 256) ++ [n % 256]

/-- Modelled from the spec: the external one-way derivation primitive
(`AccountId::from((program_id, &pda_seed))` from the `nssa` crate, not part
of this repository).  The spec treats it as an injected collaborator that is
a deterministic function of the program address and the 32 combined seed
bytes; it is modelled as the pair of exactly those inputs. -/
def derive_address (program_id : ProgramId) (seed : List Nat) : ProgramId × List Nat :=
  (program_id, seed)

/-- The address type produced by the derivation collaborator. -/
abbrev AccountId := ProgramId × List Nat

/-- `resolve_seed` from `src/pda.rs` lines 10-82.  The maps are lookup
functions; `program_id` is passed (and, as in the source, unused). -/
def resolve_seed (seed : IdlSeed) (_program_id : ProgramId)
    (account_map : List Nat → Option (List Nat))
    (parsed_args : List Nat → Option ParsedValue) : Except String (List Nat) :=
  match seed with
  | .Const value =>
    if value.length > 32 then
      .error ("Const seed '" ++ lit value ++ "' exceeds 32 bytes")
    else .ok (value ++ List.replicate (32 - value.length) 0)
  | .Account path =>
    match account_map path with
    | some accountId => .ok accountId
    | none =>
      .error ("PDA seed references account '" ++ lit path ++ "' which hasn't been resolved yet")
  | .Arg path =>
    match parsed_args path with
    | none => .error ("PDA seed references arg '" ++ lit path ++ "' which wasn't provided")
    | some val =>
      match val with
      | .ByteArray b =>
        if b.length ≠ 32 then
          .error ("Arg '" ++ lit path ++ "' is " ++ Nat.repr b.length ++ " bytes, expected 32")
        else .ok b
      | .U64 n => .ok (List.replicate 24 0 ++ beBytes 8 n)
      | .U128 n => .ok (List.replicate 16 0 ++ beBytes 16 n)
      | .Str s =>
        if s.length > 32 then
          .error ("String arg '" ++ lit path ++ "' exceeds 32 bytes")
        else .ok (s ++ List.replicate (32 - s.length) 0)
      | _ =>
        .error ("Arg '" ++ lit path ++
          "' has unsupported type for PDA seed. Expected bytes32, u64, u128, or string.")

/-- `xor_bytes` from `src/pda.rs` lines 85-91 (pointwise XOR of two 32-byte
arrays; on lists, pointwise XOR truncated to the shorter length). -/
def xor_bytes (a b : List Nat) : List Nat :=
  List.zipWith (fun x y => Nat.xor x y) a b

/-- The `collect::<Result<Vec<_>, _>>` over `resolve_seed` in
`compute_pda_from_seeds` (`src/pda.rs` lines 111-114): resolve each seed in
order, stopping at the first error. -/
def resolveSeeds : List IdlSeed → ProgramId → (List Nat → Option (List Nat)) →
    (List Nat → Option ParsedValue) → Except String (List (List Nat))
  | [], _, _, _ => .ok []
  | s :: rest, pid, am, pa =>
    match resolve_seed s pid am pa with
    | .error e => .error e
    | .ok r =>
      match resolveSeeds rest pid am pa with
      | .error e => .error e
      | .ok rs => .ok (r :: rs)

/-- `compute_pda_from_seeds` from `src/pda.rs` lines 100-124: reject empty
seed lists, resolve every seed, fold the tail onto the head with `xor_bytes`,
and hand the combined bytes to the derivation collaborator. -/
def compute_pda_from_seeds (seeds : List IdlSeed) (program_id : ProgramId)
    (account_map : List Nat → Option (List Nat))
    (parsed_args : List Nat → Option ParsedValue) : Except String AccountId :=
  match seeds with
  | [] => .error "PDA requires at least one seed"
  | s0 :: rest =>
    match resolve_seed s0 program_id account_map parsed_args with
    | .error e => .error e
    | .ok r0 =>
      match resolveSeeds rest program_id account_map parsed_args with
      | .error e => .error e
      | .ok rs => .ok (derive_address program_id (rs.foldl xor_bytes r0))

/-! ## parse.rs

Number parsing follows Rust's `FromStr`/`from_str_radix` grammar for
unsigned integers: an optional leading `+`, then one or more digits of the
radix; a value outside the type's range is an error.  The `": {e}"` detail
Rust appends to number-parse error messages (e.g. "invalid digit found in
string") is elided from the rebuilt messages of `parse_primitive` and the
array/vector element loops.  Rust's `str::trim` strips Unicode whitespace;
the byte-level model strips the ASCII whitespace bytes. -/

/-- Digit value of a byte under `radix`, as in `char::to_digit`. -/
def digitVal (radix b : Nat) : Option Nat :=
  let d :=
    if 48 ≤ b ∧ b ≤ 57 then some (b - 48)
    else if 97 ≤ b ∧ b ≤ 122 then some (b - 87)
    else if 65 ≤ b ∧ b ≤ 90 then some (b - 55)
    else none
  match d with
  | some v => if v < radix then some v else none
  | none => none

/-- Rust `uN::from_str_radix` (and decimal `FromStr`): optional `+`, one or
more digits, value below `bound`. -/
def parse_uint (radix bound : Nat) (s : List Nat) : Option Nat :=
  let s' := match s with | 43 :: rest => rest | _ => s
  if s' = [] then none
  else if s'.all (fun b => (digitVal radix b).isSome) then
    let v := s'.foldl (fun acc b => acc * radix + (digitVal radix b).getD 0) 0
    if v < bound then some v else none
  else none

/-- ASCII whitespace bytes (the ASCII part of `char::is_whitespace`). -/
def isWsByte (b : Nat) : Bool :=
  b == 32 || b == 9 || b == 10 || b == 11 || b == 12 || b == 13

/-- `str::trim` on the byte model. -/
def trimBytes (l : List Nat) : List Nat :=
  ((l.dropWhile isWsByte).reverse.dropWhile isWsByte).reverse

/-- `str::split(sep)` on bytes: `splitOnByte 44 (str "a,,b") = [str "a", [], str "b"]`,
and the empty input yields one empty part, as in Rust. -/
def splitOnByte (sep : Nat) (l : List Nat) : List (List Nat) :=
  l.foldr (fun b acc =>
    match acc with
    | cur :: rest => if b = sep then [] :: cur :: rest else (b :: cur) :: rest
    | [] => [[b]]) [[]]

/-- One comma-separated `program_id` component (`src/parse.rs` lines 98-102):
`0x`/`0X`-prefixed hex or decimal, as a `u32`. -/
def parse_pid_component (p : List Nat) : Option Nat :=
  if p.take 2 = str "0x" ∨ p.take 2 = str "0X" then parse_uint 16 (2 ^ 32) (p.drop 2)
  else parse_uint 10 (2 ^ 32) p

/-- The indexed component loop of `parse_program_id` (lines 96-104). -/
def parse_pid_parts : List (List Nat) → Nat → Except String (List Nat)
  | [], _ => .ok []
  | p :: rest, i =>
    match parse_pid_component p with
    | some v =>
      match parse_pid_parts rest (i + 1) with
      | .ok vs => .ok (v :: vs)
      | .error e => .error e
    | none => .error ("ProgramId[" ++ Nat.repr i ++ "] invalid u32 '" ++ lit p ++ "'")

/-- `bytes.chunks(4)` each read with `u32::from_le_bytes` (only used on
lengths divisible by 4; the source would panic on a short final chunk). -/
def chunksLe : List Nat → List Nat
  | b0 :: b1 :: b2 :: b3 :: rest =>
    (b0 + 256 * b1 + 65536 * b2 + 16777216 * b3) :: chunksLe rest
  | _ => []

/-- `parse_program_id` from `src/parse.rs` lines 90-116. -/
def parse_program_id (raw : List Nat) : Except String ParsedValue :=
  if raw.contains 44 then
    let parts := (splitOnByte 44 raw).map trimBytes
    if parts.length ≠ 8 then
      .error ("ProgramId needs 8 u32 values, got " ++ Nat.repr parts.length)
    else
      match parse_pid_parts parts 0 with
      | .ok vs => .ok (.U32Array vs)
      | .error e => .error e
  else if raw.length = 64 ∧ raw.all isHexDigit = true then
    match hex_decode raw with
    | .ok bytes => .ok (.U32Array (chunksLe bytes))
    | .error e => .error e
  else
    .error ("Invalid ProgramId '" ++ lit raw ++
      "': expected 8 comma-separated u32s or 64 hex chars")

/-- `parse_primitive` from `src/parse.rs` lines 73-88. -/
def parse_primitive (raw prim : List Nat) : Except String ParsedValue :=
  if prim = str "u8" then
    match parse_uint 10 (2 ^ 8) raw with
    | some v => .ok (.U8 v)
    | none => .error ("Invalid u8 '" ++ lit raw ++ "'")
  else if prim = str "u32" then
    match parse_uint 10 (2 ^ 32) raw with
    | some v => .ok (.U32 v)
    | none => .error ("Invalid u32 '" ++ lit raw ++ "'")
  else if prim = str "u64" then
    match parse_uint 10 (2 ^ 64) raw with
    | some v => .ok (.U64 v)
    | none => .error ("Invalid u64 '" ++ lit raw ++ "'")
  else if prim = str "u128" then
    match parse_uint 10 (2 ^ 128) raw with
    | some v => .ok (.U128 v)
    | none => .error ("Invalid u128 '" ++ lit raw ++ "'")
  else if prim = str "program_id" then parse_program_id raw
  else if prim = str "bool" then
    if raw = str "true" ∨ raw = str "1" ∨ raw = str "yes" then .ok (.Bool true)
    else if raw = str "false" ∨ raw = str "0" ∨ raw = str "no" then .ok (.Bool false)
    else .error ("Invalid bool '" ++ lit raw ++ "': expected true/false")
  else if prim = str "string" ∨ prim = str "String" then .ok (.Str raw)
  else .ok (.Raw (prim ++ str "(" ++ raw ++ str ")"))

/-- The decimal `u32` loop of the `[u32; N]` array branch (lines 149-152). -/
def parseU32Parts : List (List Nat) → Except String (List Nat)
  | [] => .ok []
  | p :: rest =>
    match parse_uint 10 (2 ^ 32) p with
    | some v =>
      match parseU32Parts rest with
      | .ok vs => .ok (v :: vs)
      | .error e => .error e
    | none => .error ("Invalid u32 '" ++ lit p ++ "'")

/-- `parse_array` from `src/parse.rs` lines 118-157. -/
def parse_array (raw : List Nat) (elem : IdlType) (size : Nat) : Except String ParsedValue :=
  match elem with
  | .Primitive p =>
    if p = str "u8" then
      if raw.length = size * 2 ∧ raw.all isHexDigit = true then
        match hex_decode raw with
        | .error e => .error e
        | .ok bytes =>
          if bytes.length ≠ size then
            .error ("Expected " ++ Nat.repr size ++ " bytes, got " ++ Nat.repr bytes.length)
          else .ok (.ByteArray bytes)
      else if raw.take 2 = str "0x" ∨ raw.take 2 = str "0X" then
        match hex_decode (raw.drop 2) with
        | .error e => .error e
        | .ok bytes =>
          if bytes.length ≠ size then
            .error ("Expected " ++ Nat.repr size ++ " bytes from hex, got " ++ Nat.repr bytes.length)
          else .ok (.ByteArray bytes)
      else if raw.length > size then
        .error ("String '" ++ lit raw ++ "' is " ++ Nat.repr raw.length ++ " bytes, max " ++
          Nat.repr size ++ " for [u8; " ++ Nat.repr size ++ "]")
      else .ok (.ByteArray (raw ++ List.replicate (size - raw.length) 0))
    else if p = str "u32" then
      let parts := (splitOnByte 44 raw).map trimBytes
      if parts.length ≠ size then
        .error ("Expected " ++ Nat.repr size ++ " u32 values, got " ++ Nat.repr parts.length)
      else
        match parseU32Parts parts with
        | .ok vs => .ok (.U32Array vs)
        | .error e => .error e
    else .ok (.Raw raw)
  | _ => .ok (.Raw raw)

/-- The indexed element loop of `parse_vec` (`src/parse.rs` lines 169-182). -/
def parseVecElems (size : Nat) : List (List Nat) → Nat → Except String (List (List Nat))
  | [], _ => .ok []
  | part :: rest, i =>
    if size = 32 then
      match decode_bytes_32 part with
      | .error e => .error ("Element [" ++ Nat.repr i ++ "]: " ++ e)
      | .ok bytes =>
        match parseVecElems size rest (i + 1) with
        | .ok vs => .ok (bytes :: vs)
        | .error e => .error e
    else
      match hex_decode (strip0x part) with
      | .error e => .error ("Element [" ++ Nat.repr i ++ "]: " ++ e)
      | .ok bytes =>
        if bytes.length ≠ size then
          .error ("Element [" ++ Nat.repr i ++ "]: expected " ++ Nat.repr size ++
            " bytes, got " ++ Nat.repr bytes.length ++ " from '" ++ lit part ++ "'")
        else
          match parseVecElems size rest (i + 1) with
          | .ok vs => .ok (bytes :: vs)
          | .error e => .error e

/-- `parse_vec` from `src/parse.rs` lines 159-189. -/
def parse_vec (raw : List Nat) (elem : IdlType) : Except String ParsedValue :=
  match elem with
  | .Array (.Primitive p) size =>
    if p = str "u8" then
      if raw = [] then .ok (.ByteArrayVec [])
      else
        let parts := (splitOnByte 44 raw).map trimBytes
        match parseVecElems size parts 0 with
        | .ok vs => .ok (.ByteArrayVec vs)
        | .error e => .error e
    else .ok (.Raw raw)
  | _ => .ok (.Raw raw)

/-- `parse_value` from `src/parse.rs` lines 57-71. -/
def parse_value (raw : List Nat) (ty : IdlType) : Except String ParsedValue :=
  match ty with
  | .Primitive p => parse_primitive raw p
  | .Array elem size => parse_array raw elem size
  | .Vec elem => parse_vec raw elem
  | .Option inner =>
    if raw = str "none" ∨ raw = str "null" ∨ raw = [] then .ok .None
    else
      match parse_value raw inner with
      | .ok v => .ok (.Some v)
      | .error e => .error e
  | .Defined d => .ok (.Raw (d ++ str "(" ++ raw ++ str ")"))

/-! ## serialize.rs

The serializer appends 32-bit words to `out` and never fails: on a type it
cannot encode it prints a warning to stderr (`eprintln!`) and continues.
Each function is modelled as returning the new word list together with the
list of warnings it printed (the fixed message text, without the `{:?}`
debug payload). -/

/-- Little-endian base-256 bytes of the low `k` bytes of `n`; models
`u128::to_le_bytes` with `k = 16`. -/
def leBytes : Nat → Nat → List Nat
  | 0, _ => []
  | k + 1, n => n % 256 :: leBytes k (n / 256)

/-- The `serialize_bytes_padded` loop body (`src/serialize.rs` lines
115-125): 4-byte little-endian words, the last chunk zero-padded on the
high-order side. -/
def padWords : List Nat → List Nat
  | b0 :: b1 :: b2 :: b3 :: rest =>
    (b0 + 256 * b1 + 65536 * b2 + 16777216 * b3) :: padWords rest
  | [] => []
  | [b0] => [b0]
  | [b0, b1] => [b0 + 256 * b1]
  | [b0, b1, b2] => [b0 + 256 * b1 + 65536 * b2]

/-- `serialize_bytes_padded` from `src/serialize.rs` lines 115-125. -/
def serialize_bytes_padded (out bytes : List Nat) : List Nat :=
  out ++ padWords bytes

/-- `serialize_primitive_risc0` from `src/serialize.rs` lines 43-72. -/
def serialize_primitive_risc0 (out : List Nat) (prim : List Nat) (val : ParsedValue) :
    List Nat × List String :=
  let mismatch : List Nat × List String := (out, ["Type mismatch in risc0 serialization"])
  if prim = str "bool" then
    match val with
    | .Bool b => (out ++ [if b then 1 else 0], [])
    | _ => mismatch
  else if prim = str "u8" then
    match val with
    | .U8 v => (out ++ [v], [])
    | _ => mismatch
  else if prim = str "u32" then
    match val with
    | .U32 v => (out ++ [v], [])
    | _ => mismatch
  else if prim = str "u64" then
    match val with
    | .U64 v => (out ++ [v % 2 ^ 32, (v / 2 ^ 32) % 2 ^ 32], [])
    | _ => mismatch
  else if prim = str "u128" then
    match val with
    | .U128 v => (out ++ chunksLe (leBytes 16 v), [])
    | _ => mismatch
  else if prim = str "program_id" then
    match val with
    | .U32Array vals => (out ++ vals, [])
    | _ => mismatch
  else if prim = str "string" ∨ prim = str "String" then
    match val with
    | .Str s => (serialize_bytes_padded (out ++ [s.length % 2 ^ 32]) s, [])
    | _ => mismatch
  else mismatch

/-- `serialize_array_risc0` from `src/serialize.rs` lines 74-90. -/
def serialize_array_risc0 (out : List Nat) (elem : IdlType) (_size : Nat) (val : ParsedValue) :
    List Nat × List String :=
  let warn : List Nat × List String := (out, ["Cannot serialize array type in risc0 format"])
  match elem, val with
  | .Primitive p, .ByteArray bytes => if p = str "u8" then (out ++ bytes, []) else warn
  | .Primitive p, .U32Array vals => if p = str "u32" then (out ++ vals, []) else warn
  | _, _ => warn

/-- `serialize_vec_risc0` from `src/serialize.rs` lines 92-113.  Note the
element-count word is pushed before the element type is examined. -/
def serialize_vec_risc0 (out : List Nat) (elem : IdlType) (val : ParsedValue) :
    List Nat × List String :=
  match elem, val with
  | .Array inner _size, .ByteArrayVec vecs =>
    let out2 := out ++ [vecs.length % 2 ^ 32]
    match inner with
    | .Primitive p =>
      if p = str "u8" then (out2 ++ vecs.flatten, [])
      else (out2, ["Cannot serialize Vec element type in risc0 format"])
    | _ => (out2, ["Cannot serialize Vec element type in risc0 format"])
  | _, _ => (out, ["Cannot serialize Vec type in risc0 format"])

/-- `serialize_value_risc0` from `src/serialize.rs` lines 21-41. -/
def serialize_value_risc0 (out : List Nat) (ty : IdlType) (val : ParsedValue) :
    List Nat × List String :=
  match ty, val with
  | .Primitive p, _ => serialize_primitive_risc0 out p val
  | .Array elem size, _ => serialize_array_risc0 out elem size val
  | .Vec elem, _ => serialize_vec_risc0 out elem val
  | .Option _, .None => (out ++ [0], [])
  | .Option inner, .Some v => serialize_value_risc0 (out ++ [1]) inner v
  | .Option inner, v => serialize_value_risc0 (out ++ [1]) inner v
  | .Defined _, _ => (out, ["Cannot serialize Defined/Raw type in risc0 format"])

/-- `serialize_to_risc0` from `src/serialize.rs` lines 10-19: the selector
word, then each argument encoded in order. -/
def serialize_to_risc0 (variant_index : Nat) (args : List (IdlType × ParsedValue)) :
    List Nat × List String :=
  args.foldl
    (fun acc tv =>
      let r := serialize_value_risc0 acc.1 tv.1 tv.2
      (r.1, acc.2 ++ r.2))
    ([variant_index], [])

/-! ## tx.rs — the pre-parse phases of `execute_instruction` -/

/-- `IdlArg` from `nssa-framework-core/src/idl.rs` lines 72-76. -/
structure IdlArg where
  name : List Nat
  type_ : IdlType
deriving DecidableEq

/-- `IdlAccountItem` from `nssa-framework-core/src/idl.rs` lines 33-48, the
`IdlPda` wrapper around its seed list flattened into the option. -/
structure IdlAccountItem where
  name : List Nat
  writable : Bool
  signer : Bool
  init : Bool
  owner : Option (List Nat)
  pda : Option (List IdlSeed)
  rest : Bool
deriving DecidableEq

/-- `IdlInstruction` from `nssa-framework-core/src/idl.rs` lines 25-29. -/
structure IdlInstruction where
  name : List Nat
  accounts : List IdlAccountItem
  args : List IdlArg
deriving DecidableEq

/-- `snake_to_kebab` from `src/cli.rs` lines 101-103. -/
def snake_to_kebab (s : List Nat) : List Nat :=
  s.map (fun b => if b = 95 then 45 else b)

/-- The "Validate required args" loop of `execute_instruction`
(`src/tx.rs` lines 46-61): every declared argument, and every non-PDA
account, must have a supplied raw value; each missing one contributes its
`--`-prefixed CLI flag name. -/
def missing_required (ix : IdlInstruction) (args : List Nat → Option (List Nat)) :
    List (List Nat) :=
  ix.args.filterMap (fun a =>
    let key := snake_to_kebab a.name
    if (args key).isSome then none else some (str "--" ++ key)) ++
  ix.accounts.filterMap (fun a =>
    if a.pda.isSome then none
    else
      let key := snake_to_kebab a.name ++ str "-account"
      if (args key).isSome then none else some (str "--" ++ key))

/-- Outcome of `execute_instruction` up to the end of its parse phase.
`missingArgs` models the `eprintln!("❌ Missing required arguments: ...")`
followed by `process::exit(1)` (lines 62-65), carrying every missing flag
name of the single aggregated message; `parseFailed` models the collected
per-field parse errors followed by `exit(1)` (lines 67-90); `ready` carries
the parsed arguments and the decoded non-PDA account ids. -/
inductive ExecOutcome where
  | missingArgs : List (List Nat) → ExecOutcome
  | parseFailed : List String → ExecOutcome
  | ready : List (List Nat × IdlType × ParsedValue) → List (List Nat × List Nat) → ExecOutcome
deriving DecidableEq

/-- The completeness-check and parse phases of `execute_instruction`
(`src/tx.rs` lines 46-90), after the auto-fill step (whose effect is part of
the supplied `args` map).  The parse phase collects all per-field errors
before failing; `args key` is total on the keys reached because the
completeness check already passed. -/
def execute_check_and_parse (ix : IdlInstruction) (args : List Nat → Option (List Nat)) :
    ExecOutcome :=
  let missing := missing_required ix args
  if missing.isEmpty then
    let pa := ix.args.foldl
      (fun acc arg =>
        let key := snake_to_kebab arg.name
        let raw := (args key).getD []
        match parse_value raw arg.type_ with
        | .ok v => (acc.1 ++ [(arg.name, arg.type_, v)], acc.2)
        | .error e => (acc.1, acc.2 ++ ["--" ++ lit key ++ ": " ++ e]))
      ([], [])
    let pacc := ix.accounts.foldl
      (fun acc a =>
        if a.pda.isSome then acc
        else
          let key := snake_to_kebab a.name ++ str "-account"
          let raw := (args key).getD []
          match decode_bytes_32 raw with
          | .ok bytes => (acc.1 ++ [(a.name, bytes)], acc.2)
          | .error e => (acc.1, acc.2 ++ ["--" ++ lit key ++ ": " ++ e]))
      (([] : List (List Nat × List Nat)), ([] : List String))
    if (pa.2 ++ pacc.2).isEmpty then .ready pa.1 pacc.1
    else .parseFailed (pa.2 ++ pacc.2)
  else .missingArgs missing

/-! ## Helper definitions used only by theorem statements -/

/-- Little-endian value of a byte list (missing high bytes read as zero);
`leValue (chunk of k bytes) = u32::from_le_bytes(chunk zero-padded to 4)`. -/
def leValue : List Nat → Nat
  | [] => 0
  | b :: t => b + 256 * leValue t

/-- The `ParsedValue` kinds that fall into the `_` arm of `resolve_seed`'s
argument conversion (everything except `ByteArray`, `U64`, `U128`, `Str`). -/
def unsupportedSeedValue : ParsedValue → Bool
  | .ByteArray _ => false
  | .U64 _ => false
  | .U128 _ => false
  | .Str _ => false
  | _ => true

/-! # Theorems -/

/-! ## C1 — the 32-byte address parser -/

/-- A successful `hexPairs` run consumed exactly two input bytes per output
byte. -/
theorem hexPairs_ok_length : ∀ (s : List Nat) (i : Nat) (b : List Nat),
    hexPairs s i = .ok b → s.length = 2 * b.length
  | [], _, _, h => by
    simp only [hexPairs, Except.ok.injEq] at h
    subst h; rfl
  | [_], _, _, h => by simp [hexPairs] at h
  | c0 :: c1 :: rest, i, b, h => by
    simp only [hexPairs] at h
    cases hp : parseHexPair c0 c1 with
    | none => rw [hp] at h; exact absurd h (by simp)
    | some v =>
      rw [hp] at h
      cases hr : hexPairs rest (i + 2) with
      | error e => rw [hr] at h; exact absurd h (by simp)
      | ok bs =>
        rw [hr] at h
        simp only [Except.ok.injEq] at h
        subst h
        have ih := hexPairs_ok_length rest (i + 2) bs hr
        simp only [List.length_cons, ih]
        omega

/-- A successful `hex_decode` consumed a string of exactly twice as many
characters as it produced bytes. -/
theorem hex_decode_ok_length (s b : List Nat) (h : hex_decode s = .ok b) :
    s.length = 2 * b.length := by
  unfold hex_decode at h
  split at h
  · exact absurd h (by simp)
  · exact hexPairs_ok_length s 0 b h

/-- C1 (corrected): `decode_bytes_32` accepts an input iff base58 decoding
succeeds with exactly 32 bytes, or the input is not base58 at all and, after
an optional `0x`/`0X` prefix, hex-decodes to exactly 32 bytes (i.e. 64
characters).  A wrong decoded length — from either decoder — is rejected
with a message stating the decoded length and the expected 32; in
particular, base58-valid input of the wrong decoded length is rejected
without ever trying the hex interpretation. -/
theorem decode_bytes_32_spec (input : List Nat) :
    ((∃ b, decode_bytes_32 input = .ok b) ↔
      (∃ b, from_base58 input = some b ∧ b.length = 32) ∨
      (from_base58 input = none ∧
        ∃ b, hex_decode (strip0x input) = .ok b ∧ b.length = 32)) ∧
    (∀ b, from_base58 input = some b → b.length ≠ 32 →
      decode_bytes_32 input =
        .error ("Base58 decoded to " ++ Nat.repr b.length ++ " bytes, expected 32")) ∧
    (∀ b, from_base58 input = none → hex_decode (strip0x input) = .ok b → b.length ≠ 32 →
      decode_bytes_32 input =
        .error ("Expected 32 bytes, got " ++ Nat.repr b.length ++
          " (provide base58 or 64 hex chars)")) ∧
    (∀ b, hex_decode (strip0x input) = .ok b → (strip0x input).length = 2 * b.length) := by
  refine ⟨?_, ?_, ?_, fun b h => hex_decode_ok_length _ b h⟩
  · unfold decode_bytes_32
    cases hb : from_base58 input with
    | some bytes =>
      by_cases h32 : bytes.length = 32
      · simp [h32]
      · simp [h32]
    | none =>
      cases hh : hex_decode (strip0x input) with
      | error e => simp
      | ok bytes =>
        by_cases h32 : bytes.length = 32
        · simp [h32]
        · simp [h32]
  · intro b hb h32
    unfold decode_bytes_32
    rw [hb]
    simp [h32]
  · intro b hb hh h32
    unfold decode_bytes_32
    rw [hb, hh]
    simp [h32]

/-- C1 counterexample: the all-`'1'` string of length 64 consists of exactly
64 hex characters and carries no `0x` prefix, yet it is rejected: it is also
valid base58 (decoding to 64 zero bytes), and the base58 branch wins without
a hex fallback. -/
theorem decode_bytes_32_hex64_rejected :
    (List.replicate 64 49 : List Nat).length = 64 ∧
    (List.replicate 64 49 : List Nat).all isHexDigit = true ∧
    strip0x (List.replicate 64 49) = List.replicate 64 49 ∧
    decode_bytes_32 (List.replicate 64 49) =
      .error "Base58 decoded to 64 bytes, expected 32" := by decide

/-- C1 witness: the corrected theorem applied at the shadowed input. -/
theorem decode_bytes_32_spec_witness :
    decode_bytes_32 (List.replicate 64 49) =
      .error "Base58 decoded to 64 bytes, expected 32" := by
  have h := (decode_bytes_32_spec (List.replicate 64 49)).2.1
    (List.replicate 64 0) (by decide) (by decide)
  simpa using h

/-! ## C2, C3 — XOR seed combination -/

theorem xor_bytes_comm (a b : List Nat) : xor_bytes a b = xor_bytes b a := by
  induction a generalizing b with
  | nil => cases b <;> rfl
  | cons x xs ih =>
    cases b with
    | nil => rfl
    | cons y ys =>
      simp only [xor_bytes, List.zipWith_cons_cons, List.cons.injEq]
      exact ⟨Nat.xor_comm x y, ih ys⟩

theorem xor_bytes_assoc (a b c : List Nat) :
    xor_bytes (xor_bytes a b) c = xor_bytes a (xor_bytes b c) := by
  induction a generalizing b c with
  | nil => cases b <;> cases c <;> rfl
  | cons x xs ih =>
    cases b with
    | nil => rfl
    | cons y ys =>
      cases c with
      | nil => rfl
      | cons z zs =>
        simp only [xor_bytes, List.zipWith_cons_cons, List.cons.injEq]
        exact ⟨Nat.xor_assoc x y z, ih ys zs⟩

theorem xor_bytes_right_comm (b a a' : List Nat) :
    xor_bytes (xor_bytes b a) a' = xor_bytes (xor_bytes b a') a := by
  rw [xor_bytes_assoc, xor_bytes_assoc, xor_bytes_comm a a']

/-- Folding `xor_bytes` over a list is invariant under permuting the list. -/
theorem foldl_xor_bytes_perm {l l' : List (List Nat)} (h : l.Perm l') :
    ∀ b : List Nat, l.foldl xor_bytes b = l'.foldl xor_bytes b := by
  induction h with
  | nil => intro b; rfl
  | cons x _ ih => intro b; simp only [List.foldl_cons]; exact ih _
  | swap x y l => intro b; simp only [List.foldl_cons, xor_bytes_right_comm]
  | trans _ _ ih1 ih2 => intro b; exact (ih1 b).trans (ih2 b)

/-- The head-seeded `xor_bytes` fold of `compute_pda_from_seeds` is
invariant under permuting the whole (head included) resolved-seed list. -/
theorem foldl_xor_bytes_head_perm {l l' : List (List Nat)} (h : l.Perm l') :
    ∀ a t a' t', l = a :: t → l' = a' :: t' →
      t.foldl xor_bytes a = t'.foldl xor_bytes a' := by
  induction h with
  | nil => intro a t a' t' h1 _; cases h1
  | cons x h ih =>
    intro a t a' t' h1 h2
    cases h1; cases h2
    exact foldl_xor_bytes_perm h x
  | swap x y l =>
    intro a t a' t' h1 h2
    cases h1; cases h2
    simp only [List.foldl_cons, xor_bytes_comm y x]
  | trans h1 h2 ih1 ih2 =>
    intro a t a' t' e1 e2
    subst e1; subst e2
    rename_i mid
    cases hm : mid with
    | nil =>
      rw [hm] at h1
      exact absurd h1.length_eq (by simp)
    | cons m ms =>
      rw [hm] at ih1 ih2
      exact (ih1 a t m ms rfl rfl).trans (ih2 m ms a' t' rfl rfl)

/-- When every seed resolves, the `collect` over `resolve_seed` returns the
pointwise resolutions. -/
theorem resolveSeeds_map (pid : ProgramId) (am : List Nat → Option (List Nat))
    (pa : List Nat → Option ParsedValue) (r : IdlSeed → List Nat) :
    ∀ l : List IdlSeed, (∀ s ∈ l, resolve_seed s pid am pa = .ok (r s)) →
      resolveSeeds l pid am pa = .ok (l.map r)
  | [], _ => rfl
  | s :: rest, h => by
    have hs := h s (by simp)
    have hrest := resolveSeeds_map pid am pa r rest (fun t ht => h t (by simp [ht]))
    simp [resolveSeeds, hs, hrest]

/-- C2: for a non-empty seed list all of whose seeds resolve successfully
(to `r s` each), any permutation of the seed list derives the same address:
the byte-wise XOR fold is order-independent. -/
theorem compute_pda_perm (seeds seeds' : List IdlSeed) (pid : ProgramId)
    (am : List Nat → Option (List Nat)) (pa : List Nat → Option ParsedValue)
    (r : IdlSeed → List Nat)
    (hperm : seeds.Perm seeds')
    (hok : ∀ s ∈ seeds, resolve_seed s pid am pa = .ok (r s))
    (hne : seeds ≠ []) :
    compute_pda_from_seeds seeds pid am pa = compute_pda_from_seeds seeds' pid am pa := by
  have hok' : ∀ s ∈ seeds', resolve_seed s pid am pa = .ok (r s) :=
    fun s hs => hok s (hperm.mem_iff.mpr hs)
  cases seeds with
  | nil => exact absurd rfl hne
  | cons s0 rest =>
    cases seeds' with
    | nil => exact absurd hperm.length_eq (by simp)
    | cons t0 trest =>
      have h0 := hok s0 (by simp)
      have h0' := hok' t0 (by simp)
      have hr := resolveSeeds_map pid am pa r rest (fun t ht => hok t (by simp [ht]))
      have hr' := resolveSeeds_map pid am pa r trest (fun t ht => hok' t (by simp [ht]))
      simp only [compute_pda_from_seeds, h0, h0', hr, hr']
      have hfold : (rest.map r).foldl xor_bytes (r s0) =
          (trest.map r).foldl xor_bytes (r t0) :=
        foldl_xor_bytes_head_perm (hperm.map r) (r s0) (rest.map r) (r t0) (trest.map r)
          (by simp) (by simp)
      rw [hfold]

/-- C2 witness: two constant seeds, swapped. -/
theorem compute_pda_perm_witness :
    compute_pda_from_seeds [.Const (str "alpha"), .Const (str "beta")]
      (List.replicate 8 0) (fun _ => none) (fun _ => none) =
    compute_pda_from_seeds [.Const (str "beta"), .Const (str "alpha")]
      (List.replicate 8 0) (fun _ => none) (fun _ => none) := by
  exact compute_pda_perm _ _ _ _ _
    (fun s => match s with
      | .Const v => v ++ List.replicate (32 - v.length) 0
      | _ => [])
    (by decide) (by decide) (by decide)

/-- C3: a PDA from `[Const "test", FromArgument "key"]` with `key` parsed to
32 zero bytes equals, for every program address (and any account map), the
PDA from the single seed `[Const "test"]`: XOR with an all-zero seed is the
identity. -/
theorem compute_pda_zero_arg_identity (pid : ProgramId)
    (am : List Nat → Option (List Nat)) :
    compute_pda_from_seeds [.Const (str "test"), .Arg (str "key")] pid am
      (fun k => if k = str "key" then some (.ByteArray (List.replicate 32 0)) else none) =
    compute_pda_from_seeds [.Const (str "test")] pid am (fun _ => none) := by
  rfl

/-! ## C4 — FromArgument seed conversion -/

/-- C4: resolving a `FromArgument` seed converts the looked-up parsed value
by kind: a 32-byte array as-is (any other length errors stating both
lengths); `u64` big-endian in the last 8 bytes of a zero buffer; `u128`
big-endian in the last 16; a string left-aligned, erroring iff over 32
bytes; every other kind an "unsupported seed type" error; and an absent
name an error naming the missing reference. -/
theorem resolve_seed_arg_spec (path : List Nat) (pid : ProgramId)
    (am : List Nat → Option (List Nat)) (pa : List Nat → Option ParsedValue) :
    (pa path = none →
      resolve_seed (.Arg path) pid am pa =
        .error ("PDA seed references arg '" ++ lit path ++ "' which wasn't provided")) ∧
    (∀ b, pa path = some (.ByteArray b) →
      (b.length = 32 → resolve_seed (.Arg path) pid am pa = .ok b) ∧
      (b.length ≠ 32 → resolve_seed (.Arg path) pid am pa =
        .error ("Arg '" ++ lit path ++ "' is " ++ Nat.repr b.length ++
          " bytes, expected 32"))) ∧
    (∀ n, pa path = some (.U64 n) →
      resolve_seed (.Arg path) pid am pa = .ok (List.replicate 24 0 ++ beBytes 8 n)) ∧
    (∀ n, pa path = some (.U128 n) →
      resolve_seed (.Arg path) pid am pa = .ok (List.replicate 16 0 ++ beBytes 16 n)) ∧
    (∀ s, pa path = some (.Str s) →
      (s.length ≤ 32 →
        resolve_seed (.Arg path) pid am pa = .ok (s ++ List.replicate (32 - s.length) 0)) ∧
      (32 < s.length → resolve_seed (.Arg path) pid am pa =
        .error ("String arg '" ++ lit path ++ "' exceeds 32 bytes"))) ∧
    (∀ v, pa path = some v → unsupportedSeedValue v = true →
      resolve_seed (.Arg path) pid am pa =
        .error ("Arg '" ++ lit path ++
          "' has unsupported type for PDA seed. Expected bytes32, u64, u128, or string.")) := by
  refine ⟨?_, ?_, ?_, ?_, ?_, ?_⟩
  · intro h; simp [resolve_seed, h]
  · intro b h
    constructor
    · intro h32; simp [resolve_seed, h, h32]
    · intro h32; simp [resolve_seed, h, h32]
  · intro n h; simp [resolve_seed, h]
  · intro n h; simp [resolve_seed, h]
  · intro s h
    constructor
    · intro hle; simp [resolve_seed, h, Nat.not_lt.mpr hle]
    · intro hgt; simp [resolve_seed, h, hgt]
  · intro v h hv
    cases v <;> simp_all [resolve_seed, unsupportedSeedValue]

/-- C4 witness: the conversion rules applied at concrete arguments. -/
theorem resolve_seed_arg_spec_witness :
    resolve_seed (.Arg (str "k")) [] (fun _ => none)
        (fun k => if k = str "k" then some (.U64 5) else none) =
      .ok (List.replicate 24 0 ++ beBytes 8 5) ∧
    resolve_seed (.Arg (str "m")) [] (fun _ => none) (fun _ => none) =
      .error ("PDA seed references arg '" ++ lit (str "m") ++ "' which wasn't provided") ∧
    resolve_seed (.Arg (str "b")) [] (fun _ => none)
        (fun k => if k = str "b" then some (.Bool true) else none) =
      .error ("Arg '" ++ lit (str "b") ++
        "' has unsupported type for PDA seed. Expected bytes32, u64, u128, or string.") := by
  refine ⟨?_, ?_, ?_⟩
  · exact (resolve_seed_arg_spec (str "k") [] _ _).2.2.1 5 (by decide)
  · exact (resolve_seed_arg_spec (str "m") [] _ _).1 (by decide)
  · exact (resolve_seed_arg_spec (str "b") [] _ _).2.2.2.2.2 (.Bool true) (by decide) (by decide)

/-! ## C5 — program_id textual forms -/

/-- Components with equal parse results give equal `parse_pid_parts`
successes (error messages may differ, successes cannot). -/
theorem parse_pid_parts_congr :
    ∀ (ps qs : List (List Nat)) (i j : Nat) (vs : List Nat),
      ps.map parse_pid_component = qs.map parse_pid_component →
      parse_pid_parts ps i = .ok vs → parse_pid_parts qs j = .ok vs
  | [], [], _, _, _, _, h => h
  | [], _ :: _, _, _, _, hm, _ => by simp at hm
  | _ :: _, [], _, _, _, hm, _ => by simp at hm
  | p :: ps, q :: qs, i, j, vs, hm, h => by
    simp only [List.map_cons, List.cons.injEq] at hm
    simp only [parse_pid_parts] at h ⊢
    rw [← hm.1]
    cases hc : parse_pid_component p with
    | none => rw [hc] at h; exact absurd h (by simp)
    | some v =>
      rw [hc] at h
      cases hr : parse_pid_parts ps (i + 1) with
      | error e => rw [hr] at h; exact absurd h (by simp)
      | ok ws =>
        rw [hr] at h
        simp only [Except.ok.injEq] at h
        rw [parse_pid_parts_congr ps qs (i + 1) (j + 1) ws hm.2 hr]
        exact h ▸ rfl

/-- C5: equivalent accepted textual forms of a `program_id` parse to the
same eight words and hence encode identically: a comma-separated component
may be decimal or `0x`-hex (`"0x2a"` = `"42"`), component-wise equal-parsing
inputs yield the same value list, `"0,0,0,0,0,0,0,0"` and 64 `'0'`
characters both parse to eight zero words, and the encoder emits a parsed
`U32Array` verbatim, so equal parses give identical word sequences. -/
theorem parse_program_id_equivalent_forms :
    parse_pid_component (str "0x2a") = some 42 ∧
    parse_pid_component (str "42") = some 42 ∧
    (∀ ps qs vs, ps.map parse_pid_component = qs.map parse_pid_component →
      parse_pid_parts ps 0 = .ok vs → parse_pid_parts qs 0 = .ok vs) ∧
    parse_program_id (str "0,0,0,0,0,0,0,0") = .ok (.U32Array [0, 0, 0, 0, 0, 0, 0, 0]) ∧
    parse_program_id (List.replicate 64 48) = .ok (.U32Array [0, 0, 0, 0, 0, 0, 0, 0]) ∧
    (∀ out vs, serialize_primitive_risc0 out (str "program_id") (.U32Array vs) =
      (out ++ vs, [])) := by
  refine ⟨by decide, by decide, ?_, by decide, by decide, ?_⟩
  · exact fun ps qs vs hm h => parse_pid_parts_congr ps qs 0 0 vs hm h
  · intro out vs; rfl

/-- C5 witness: the congruence applied to the hex and decimal spellings of
the same component list. -/
theorem parse_program_id_equivalent_forms_witness :
    parse_pid_parts [str "0x2a", str "7"] 0 = .ok [42, 7] := by
  exact (parse_program_id_equivalent_forms).2.2.1 [str "42", str "7"] [str "0x2a", str "7"]
    [42, 7] (by decide) (by decide)

/-! ## C6 — u64 and u128 word encoding -/

/-- C6: a `u64` encodes as exactly two words, low 32 bits first, high 32
bits second; a `u128` encodes as exactly four words, each 4 consecutive
bytes of its little-endian representation read as a little-endian word —
equivalently the four 32-bit limbs from least to most significant. -/
theorem serialize_u64_u128_words :
    (∀ out v, v < 2 ^ 64 →
      serialize_primitive_risc0 out (str "u64") (.U64 v) =
        (out ++ [v % 2 ^ 32, v / 2 ^ 32], [])) ∧
    (∀ out v, v < 2 ^ 128 →
      serialize_primitive_risc0 out (str "u128") (.U128 v) =
        (out ++ chunksLe (leBytes 16 v), []) ∧
      chunksLe (leBytes 16 v) =
        [v % 2 ^ 32, v / 2 ^ 32 % 2 ^ 32, v / 2 ^ 64 % 2 ^ 32, v / 2 ^ 96 % 2 ^ 32]) := by
  constructor
  · intro out v hv
    have hmod : v / 2 ^ 32 % 2 ^ 32 = v / 2 ^ 32 := Nat.mod_eq_of_lt (by omega)
    have e : serialize_primitive_risc0 out (str "u64") (.U64 v) =
        (out ++ [v % 2 ^ 32, v / 2 ^ 32 % 2 ^ 32], []) := rfl
    rw [e, hmod]
  · intro out v _
    refine ⟨rfl, ?_⟩
    simp only [leBytes, chunksLe]
    refine congrArg₂ _ (by omega) (congrArg₂ _ (by omega) (congrArg₂ _ (by omega)
      (congrArg₂ _ (by omega) rfl)))

/-- C6 witness: both limb layouts at concrete values. -/
theorem serialize_u64_u128_words_witness :
    serialize_primitive_risc0 [] (str "u64") (.U64 (2 ^ 32 + 7)) = ([7, 1], []) ∧
    serialize_primitive_risc0 [] (str "u128") (.U128 (2 ^ 96 + 5)) = ([5, 0, 0, 1], []) := by
  constructor
  · have h := serialize_u64_u128_words.1 [] (2 ^ 32 + 7) (by norm_num)
    rw [h]; decide
  · have h := (serialize_u64_u128_words.2 [] (2 ^ 96 + 5) (by norm_num)).1
    rw [h]; decide

/-! ## C7 — string word encoding -/

/-- `padWords` produces exactly `⌈len/4⌉` words, the `i`-th being the
little-endian value of bytes `4i..4i+4`, the short final chunk read with
implicit high-order zero padding. -/
theorem padWords_eq : ∀ s : List Nat,
    padWords s = (List.range ((s.length + 3) / 4)).map
      (fun i => leValue ((s.drop (4 * i)).take 4))
  | [] => by simp [padWords]
  | [b0] => by
    have hr : List.range 1 = [0] := rfl
    simp [padWords, leValue, hr]
  | [b0, b1] => by
    have hr : List.range 1 = [0] := rfl
    simp [padWords, leValue, hr]
  | [b0, b1, b2] => by
    have hr : List.range 1 = [0] := rfl
    simp [padWords, leValue, hr]
    ring
  | b0 :: b1 :: b2 :: b3 :: rest => by
    have ih := padWords_eq rest
    have hlen : ((b0 :: b1 :: b2 :: b3 :: rest).length + 3) / 4 = (rest.length + 3) / 4 + 1 := by
      simp only [List.length_cons]; omega
    rw [padWords, ih, hlen, List.range_succ_eq_map]
    simp only [List.map_cons, List.map_map]
    refine congrArg₂ _ ?_ ?_
    · simp [leValue]; ring
    · refine List.map_congr_left (fun i _ => ?_)
      simp only [Function.comp_apply]
      rw [show 4 * (i + 1) = (((4 * i + 1) + 1) + 1) + 1 from by ring]
      simp [List.drop_succ_cons]

/-- C7 (corrected): encoding a string appends one length word equal to the
byte length *cast to `u32`* (`len % 2^32` — equal to `len` whenever
`len < 2^32`), followed by exactly `⌈len/4⌉` data words, the `i`-th being
the little-endian reading of bytes `4i..4i+4` with the short trailing chunk
zero-padded on the high-order side; in particular `"ab"` encodes as length
word 2 then the single data word for bytes `[0x61,0x62,0x00,0x00]`. -/
theorem serialize_string_words (s out : List Nat) :
    serialize_primitive_risc0 out (str "string") (.Str s) =
      (out ++ (s.length % 2 ^ 32) :: padWords s, []) ∧
    padWords s = (List.range ((s.length + 3) / 4)).map
      (fun i => leValue ((s.drop (4 * i)).take 4)) ∧
    (s.length < 2 ^ 32 →
      serialize_primitive_risc0 out (str "string") (.Str s) =
        (out ++ s.length :: padWords s, [])) ∧
    serialize_primitive_risc0 [] (str "string") (.Str (str "ab")) = ([2, 25185], []) := by
  have hser : serialize_primitive_risc0 out (str "string") (.Str s) =
      (out ++ (s.length % 2 ^ 32) :: padWords s, []) := by
    have e : serialize_primitive_risc0 out (str "string") (.Str s) =
        ((out ++ [s.length % 2 ^ 32]) ++ padWords s, []) := rfl
    rw [e, List.append_assoc]
    rfl
  refine ⟨hser, padWords_eq s, fun hlt => ?_, by decide⟩
  rw [hser, Nat.mod_eq_of_lt hlt]

/-- C7 counterexample: at a string of byte length `2^32` the length word is
`0`, not the byte length — `bytes.len() as u32` truncates. -/
theorem serialize_string_len_truncates :
    (serialize_primitive_risc0 [] (str "string")
      (.Str (List.replicate (2 ^ 32) 97))).1.head? = some 0 ∧
    (List.replicate (2 ^ 32) 97 : List Nat).length = 2 ^ 32 ∧
    (0 : Nat) ≠ 2 ^ 32 := by
  refine ⟨?_, by rw [List.length_replicate], by norm_num⟩
  have h : (serialize_primitive_risc0 [] (str "string")
      (.Str (List.replicate (2 ^ 32) 97))).1.head? =
      some ((List.replicate (2 ^ 32) 97 : List Nat).length % 2 ^ 32) := rfl
  rw [h, List.length_replicate, Nat.mod_self]

/-- C7 witness: the corrected theorem applied to `"ab"`. -/
theorem serialize_string_words_witness :
    serialize_primitive_risc0 [] (str "string") (.Str (str "ab")) =
      ([] ++ (str "ab").length :: padWords (str "ab"), []) := by
  exact (serialize_string_words (str "ab") []).2.2.1 (by decide)

/-! ## C8 — Named/Defined types are a reported error, not a panic -/

/-- C8: for every value, encoding at a `Defined` (named/opaque) type emits
no words and surfaces exactly one reported error message; the encoder (a
total function in this model) neither panics nor aborts. -/
theorem serialize_defined_reports_error (out : List Nat) (name : List Nat) (val : ParsedValue) :
    serialize_value_risc0 out (.Defined name) val =
      (out, ["Cannot serialize Defined/Raw type in risc0 format"]) := by
  cases val <;> rfl

/-! ## C9 — aggregated missing-argument reporting -/

/-- C9: whenever any declared argument or non-PDA account lacks a supplied
raw value, `execute_instruction` stops before its parse phase with the
single aggregated missing-arguments error, and that error contains every
missing argument flag and every missing non-PDA account flag at once. -/
theorem execute_missing_args_aggregated (ix : IdlInstruction)
    (args : List Nat → Option (List Nat)) :
    (missing_required ix args ≠ [] →
      execute_check_and_parse ix args = .missingArgs (missing_required ix args)) ∧
    (∀ a ∈ ix.args, args (snake_to_kebab a.name) = none →
      (str "--" ++ snake_to_kebab a.name) ∈ missing_required ix args) ∧
    (∀ acc ∈ ix.accounts, acc.pda = none →
      args (snake_to_kebab acc.name ++ str "-account") = none →
      (str "--" ++ (snake_to_kebab acc.name ++ str "-account")) ∈ missing_required ix args) := by
  refine ⟨?_, ?_, ?_⟩
  · intro h
    cases hm : missing_required ix args with
    | nil => exact absurd hm h
    | cons m ms => simp [execute_check_and_parse, hm]
  · intro a ha h
    refine List.mem_append_left _ ?_
    rw [List.mem_filterMap]
    exact ⟨a, ha, by simp [h]⟩
  · intro acc hacc hpda h
    refine List.mem_append_right _ ?_
    rw [List.mem_filterMap]
    exact ⟨acc, hacc, by simp [hpda, h]⟩

/-- C9 witness: an instruction with two arguments, both omitted — both flag
names surface in the one aggregated error. -/
theorem execute_missing_args_aggregated_witness :
    execute_check_and_parse
      ⟨str "demo", [],
        [⟨str "foo_a", .Primitive (str "u64")⟩, ⟨str "bar_b", .Primitive (str "u8")⟩]⟩
      (fun _ => none) =
      .missingArgs [str "--foo-a", str "--bar-b"] := by
  have h := (execute_missing_args_aggregated
    ⟨str "demo", [],
      [⟨str "foo_a", .Primitive (str "u64")⟩, ⟨str "bar_b", .Primitive (str "u8")⟩]⟩
    (fun _ => none)).1 (by decide)
  rw [h]; decide

/-! ## C10 — total fallback parses -/

/-- C10: `parse_value` is total on the fallback shapes: a `Defined` type
always yields an opaque `Raw` value tagging the type name around the raw
text; the primitives `"string"`/`"String"` always yield `Str raw`; and any
primitive name outside the handled set (which, beyond the documented
primitives, also contains the capitalized `"String"` spelling) is silently
accepted as an opaque `Raw` value rather than rejected. -/
theorem parse_value_total_fallbacks (raw : List Nat) :
    (∀ d, parse_value raw (.Defined d) = .ok (.Raw (d ++ str "(" ++ raw ++ str ")"))) ∧
    parse_primitive raw (str "string") = .ok (.Str raw) ∧
    parse_primitive raw (str "String") = .ok (.Str raw) ∧
    (∀ p, p ∉ [str "u8", str "u32", str "u64", str "u128", str "program_id", str "bool",
        str "string", str "String"] →
      parse_primitive raw p = .ok (.Raw (p ++ str "(" ++ raw ++ str ")"))) := by
  refine ⟨fun d => rfl, rfl, rfl, ?_⟩
  intro p hp
  simp only [List.mem_cons, List.mem_singleton, not_or] at hp
  obtain ⟨h1, h2, h3, h4, h5, h6, h7, h8⟩ := hp
  simp [parse_primitive, h1, h2, h3, h4, h5, h6, h7, h8]

/-- C10 witness: an undocumented primitive name is accepted as `Raw`. -/
theorem parse_value_total_fallbacks_witness :
    parse_primitive (str "x") (str "i64") =
      .ok (.Raw (str "i64" ++ str "(" ++ str "x" ++ str ")")) := by
  exact (parse_value_total_fallbacks (str "x")).2.2.2 (str "i64") (by decide)

end Nssa
